import Mathlib

/-!
Verification development for the network-analytics repository
(`net_analytics_collector.py` and `net_analytics_webui_standalone.py`).

The collector runs a single sequential loop that interleaves traceroute
discovery, ping latency probing and speedtest probing, writing each record
both to a SQLite store and to hourly CSV files.  The web UI is a stateless
reader answering raw, bucketed and latest-path queries over the same store.

The embedding below models:
* the durable schema rows (`pings`, `traceroutes`, `speedtests` tables) with
  timestamps as `Int` (SQLite INTEGER; the collector only ever writes
  nonnegative epoch milliseconds) and REAL columns as `ℚ`;
* the four SQL queries of the web UI as pure functions over a `Store`
  (`get_conn` returning `None` for a missing database file is modelled by an
  `Option Store` argument);
* the scheduler's traceroute-refresh decision, the per-target ping persist
  loop with fallible sinks, the sequential speedtest batch, and the hourly
  CSV tree with its header-on-empty-open rule;
* the HTTP handler's integer parameter conversion (`int(...)` on query
  strings), which raises on malformed input.
-/

namespace NetAnalytics

/-- A row of the `pings` table: `(ts_ms, target, tag, rtt_ms, success)`.
`rtt_ms` is nullable REAL, `success` is the 0/1 flag (CHECK constraint). -/
structure PingRow where
  ts_ms : Int
  target : String
  tag : String
  rtt_ms : Option ℚ
  success : Bool
deriving DecidableEq, Repr

/-- A row of the `traceroutes` table: `(ts_ms, dest, hop, ip)`.
The collector writes hop indices `1, 2, 3` from `enumerate(..., start=1)`,
so `hop` is modelled as `Nat`. -/
structure TraceRow where
  ts_ms : Int
  dest : String
  hop : Nat
  ip : Option String
deriving DecidableEq, Repr

/-- A row of the `speedtests` table. -/
structure SpeedRow where
  ts_ms : Int
  tool : String
  server_id : Option String
  server_name : Option String
  ping_ms : Option ℚ
  download_mbps : Option ℚ
  upload_mbps : Option ℚ
  jitter_ms : Option ℚ
deriving DecidableEq, Repr

/-- The durable SQLite store: the three append-only tables. -/
structure Store where
  pings : List PingRow
  traceroutes : List TraceRow
  speedtests : List SpeedRow

/-- Ordering used by `ORDER BY ts_ms ASC` on the `pings` table. -/
def tsLe (a b : PingRow) : Prop := a.ts_ms ≤ b.ts_ms

instance : DecidableRel tsLe :=
  fun a b => inferInstanceAs (Decidable (a.ts_ms ≤ b.ts_ms))

instance : IsTotal PingRow tsLe := ⟨fun a b => Int.le_total a.ts_ms b.ts_ms⟩

instance : IsTrans PingRow tsLe := ⟨fun _ _ _ hab hbc => le_trans hab hbc⟩

/-- Ordering used by `ORDER BY hop ASC` on the `traceroutes` table. -/
def hopLe (a b : TraceRow) : Prop := a.hop ≤ b.hop

instance : DecidableRel hopLe :=
  fun a b => inferInstanceAs (Decidable (a.hop ≤ b.hop))

instance : IsTotal TraceRow hopLe := ⟨fun a b => Nat.le_total a.hop b.hop⟩

instance : IsTrans TraceRow hopLe := ⟨fun _ _ _ hab hbc => le_trans hab hbc⟩

/-- Ordering used by `ORDER BY ts_ms ASC` on the `speedtests` table. -/
def speedLe (a b : SpeedRow) : Prop := a.ts_ms ≤ b.ts_ms

instance : DecidableRel speedLe :=
  fun a b => inferInstanceAs (Decidable (a.ts_ms ≤ b.ts_ms))

instance : IsTotal SpeedRow speedLe := ⟨fun a b => Int.le_total a.ts_ms b.ts_ms⟩

instance : IsTrans SpeedRow speedLe := ⟨fun _ _ _ hab hbc => le_trans hab hbc⟩

/-- Ordering on group keys used by `ORDER BY bucket_ts ASC`. -/
def keyLe (a b : Int × String) : Prop := a.1 ≤ b.1

instance : DecidableRel keyLe :=
  fun a b => inferInstanceAs (Decidable (a.1 ≤ b.1))

instance : IsTotal (Int × String) keyLe := ⟨fun a b => Int.le_total a.1 b.1⟩

instance : IsTrans (Int × String) keyLe := ⟨fun _ _ _ hab hbc => le_trans hab hbc⟩

/-- `query_pings_raw` from the web UI: rows of `pings` with
`ts_ms BETWEEN start_ms AND end_ms` (inclusive), `ORDER BY ts_ms ASC`.
A `none` store models the database file being absent (`get_conn` → `None`). -/
def query_pings_raw (db : Option Store) (start_ms end_ms : Int) : List PingRow :=
  match db with
  | none => []
  | some st =>
    ((st.pings.filter fun r => decide (start_ms ≤ r.ts_ms ∧ r.ts_ms ≤ end_ms)).insertionSort tsLe)

/-- The SQL grouping key `((ts_ms / ?) * ?) AS bucket_ts` together with `tag`
(SQLite integer division; the collector only stores nonnegative timestamps). -/
def bucketKey (w : Int) (r : PingRow) : Int × String := (r.ts_ms / w * w, r.tag)

/-- A row of the bucketed result:
`(bucket_ts, tag, avg_rtt, success_count, total_count)`. -/
structure BucketRow where
  bucket_ts : Int
  tag : String
  avg_rtt : Option ℚ
  success_count : Nat
  total_count : Nat
deriving DecidableEq, Repr

/-- One aggregated output group of `query_pings_bucketed`:
`AVG(CASE WHEN success=1 THEN rtt_ms END)` (SQL `AVG` skips NULLs and is NULL
on an empty set), `SUM(success)` and `COUNT(*)` over the rows of the group. -/
def mkBucketRow (w : Int) (rows : List PingRow) (k : Int × String) : BucketRow :=
  let grp := rows.filter fun r => decide (bucketKey w r = k)
  let vals := grp.filterMap fun r => if r.success then r.rtt_ms else none
  { bucket_ts := k.1
    tag := k.2
    avg_rtt := if vals.isEmpty then none else some (vals.sum / (vals.length : ℚ))
    success_count := grp.countP fun r => r.success
    total_count := grp.length }

/-- `query_pings_bucketed` from the web UI: filter rows to
`ts_ms BETWEEN start_ms AND end_ms`, group by `(bucket_ts, tag)` and emit one
aggregate row per group, `ORDER BY bucket_ts ASC`. -/
def query_pings_bucketed (db : Option Store) (start_ms end_ms w : Int) : List BucketRow :=
  match db with
  | none => []
  | some st =>
    let rows := st.pings.filter fun r => decide (start_ms ≤ r.ts_ms ∧ r.ts_ms ≤ end_ms)
    (((rows.map (bucketKey w)).dedup).insertionSort keyLe).map (mkBucketRow w rows)

/-- `query_speedtests` from the web UI: rows of `speedtests` in the inclusive
range, `ORDER BY ts_ms ASC`. -/
def query_speedtests (db : Option Store) (start_ms end_ms : Int) : List SpeedRow :=
  match db with
  | none => []
  | some st =>
    ((st.speedtests.filter fun r => decide (start_ms ≤ r.ts_ms ∧ r.ts_ms ≤ end_ms)).insertionSort speedLe)

/-- `query_last_traces` from the web UI: `SELECT MAX(ts_ms) FROM traceroutes`
(`none` when the table is empty, in which case `[]` is returned), then all
rows with exactly that timestamp, `ORDER BY hop ASC`. -/
def query_last_traces (db : Option Store) : List TraceRow :=
  match db with
  | none => []
  | some st =>
    match (st.traceroutes.map TraceRow.ts_ms).max? with
    | none => []
    | some m => ((st.traceroutes.filter fun r => decide (r.ts_ms = m)).insertionSort hopLe)

/-- A one-row sample store used to exercise the bucketed-query theorem. -/
def sampleStoreBucketed : Store := ⟨[⟨1500, "8.8.8.8", "dest", some 12, true⟩], [], []⟩

/-- A one-row sample store used to exercise the raw-query theorem. -/
def sampleStoreRaw : Store := ⟨[⟨5, "8.8.8.8", "dest", none, false⟩], [], []⟩

/-- A sample store holding two discovery snapshots (timestamps 100 and 200),
used to exercise the latest-path theorem. -/
def sampleStoreTraces : Store :=
  ⟨[], [⟨100, "8.8.8.8", 1, some "10.0.0.1"⟩,
        ⟨200, "8.8.8.8", 2, some "10.0.0.3"⟩,
        ⟨200, "8.8.8.8", 1, some "10.0.0.2"⟩], []⟩

/-- The scheduler state relevant to path discovery: `last_trace_ts` (seconds,
initially `0`) and the cached `hop_ips` list (initially empty).  Wall-clock
seconds are modelled as `Nat`; the clock is monotone in practice. -/
structure TraceState where
  last_trace_ts : Nat
  hop_ips : List String
deriving DecidableEq, Repr

/-- One evaluation of the discovery due-condition in the main loop:
`if now - last_trace_ts >= TRACEROUTE_REFRESH_SEC or not hop_ips:` invoke the
traceroute collaborator (whose resolved addresses for this cycle are `hops`),
keep the first three addresses, and reset the clock to `now`.  Returns the
new state and whether discovery was invoked. -/
def traceStep (refresh : Nat) (st : TraceState) (now : Nat) (hops : List String) :
    TraceState × Bool :=
  if refresh ≤ now - st.last_trace_ts ∨ st.hop_ips = [] then
    ({ last_trace_ts := now, hop_ips := hops.take 3 }, true)
  else (st, false)

/-- Run of the main loop restricted to the discovery decision: each cycle is
a pair of the wall-clock time at loop entry and the addresses the traceroute
collaborator would resolve if invoked.  Returns the times of the cycles at
which discovery was actually invoked. -/
def traceRun (refresh : Nat) : TraceState → List (Nat × List String) → List Nat
  | _, [] => []
  | st, c :: rest =>
    let s := traceStep refresh st c.1 c.2
    if s.2 then c.1 :: traceRun refresh s.1 rest else traceRun refresh s.1 rest

/-- Helper for `traceRowsOf`: `enumerate(hop_ips, start=i)` emitting one
`traceroutes` row per address, all sharing the timestamp `ts`. -/
def traceRowsAux (dest : String) (ts : Int) : Nat → List String → List TraceRow
  | _, [] => []
  | i, ip :: rest => ⟨ts, dest, i, some ip⟩ :: traceRowsAux dest ts (i + 1) rest

/-- The `traceroutes` rows persisted by one discovery cycle of the collector:
`hop_ips = hops[:3]`, then one `INSERT` per address with hop indices from
`enumerate(hop_ips, start=1)` and the single timestamp `ts` captured once for
the whole cycle. -/
def traceRowsOf (dest : String) (ts : Int) (hops : List String) : List TraceRow :=
  traceRowsAux dest ts 1 (hops.take 3)

/-- Accumulated contents of the two storage sinks for ping records. -/
structure PingSinks where
  dbRows : List PingRow
  csvRows : List PingRow
deriving DecidableEq, Repr

/-- A storage write failure, naming the target whose record was being
persisted when it occurred. -/
inductive WriteErr where
  | dbErr (target : String)
  | csvErr (target : String)
deriving DecidableEq, Repr

/-- The per-target persist portion of the ping loop in `main`:
for each target the record is inserted into SQLite and then appended to the
hourly CSV, with no exception handling around either write.  `dbFails` and
`csvFails` say which records make the respective sink raise.  The result is
the final sink contents, the list of targets that were actually pinged, and
the uncaught exception if one was raised (at which point the loop stops). -/
def pingPersistLoop (dbFails csvFails : PingRow → Bool) :
    List PingRow → PingSinks → PingSinks × List String × Option WriteErr
  | [], st => (st, [], none)
  | r :: rest, st =>
    if dbFails r then (st, [r.target], some (WriteErr.dbErr r.target))
    else
      let st1 : PingSinks := { st with dbRows := st.dbRows ++ [r] }
      if csvFails r then (st1, [r.target], some (WriteErr.csvErr r.target))
      else
        let st2 : PingSinks := { st1 with csvRows := st1.csvRows ++ [r] }
        let out := pingPersistLoop dbFails csvFails rest st2
        (out.1, r.target :: out.2.1, out.2.2)

/-- A concrete run of `pingPersistLoop` in which the SQLite insert raises for
the first target while the CSV sink never fails. -/
def pingPersistFirstDbFailure : PingSinks × List String × Option WriteErr :=
  pingPersistLoop (fun r => r.target == "10.0.0.1") (fun _ => false)
    [⟨1000, "10.0.0.1", "hop1", some 12, true⟩, ⟨1001, "8.8.8.8", "dest", none, false⟩]
    ⟨[], []⟩

/-- The structured result of a successful `run_speedtest` call (no `"error"`
key in the returned dict). -/
structure SpeedResult where
  tool : String
  server_id : Option String
  server_name : Option String
  ping_ms : Option ℚ
  download_mbps : Option ℚ
  upload_mbps : Option ℚ
  jitter_ms : Option ℚ
deriving DecidableEq, Repr

/-- The `speedtests` row inserted for a successful probe at timestamp `ts`. -/
def mkSpeedRow (ts : Int) (r : SpeedResult) : SpeedRow :=
  ⟨ts, r.tool, r.server_id, r.server_name, r.ping_ms, r.download_mbps, r.upload_mbps,
    r.jitter_ms⟩

/-- The strictly sequential speedtest batch of `main` over the configured
server list: each server is probed in list order; an `"error"` result is only
logged (no row), a successful result is persisted before the next server is
started.  `probe` abstracts `run_speedtest(tool, server_id)` and `ts` gives
the `_epoch_ms()` captured at the start of each server's iteration.  Returns
the servers attempted (in order) and the rows persisted (in order). -/
def speedtestCycle (probe : String → Except String SpeedResult) (ts : String → Int) :
    List String → List String × List SpeedRow
  | [] => ([], [])
  | s :: rest =>
    let tail := speedtestCycle probe ts rest
    match probe s with
    | Except.error _ => (s :: tail.1, tail.2)
    | Except.ok r => (s :: tail.1, mkSpeedRow (ts s) r :: tail.2)

/-- A line of an hourly CSV file: either the fixed column header written by
`_ensure_open`, or a data row written by one of the `write_*` methods. -/
inductive Entry where
  | header (cols : List String)
  | data (vals : List String)
deriving DecidableEq, Repr

/-- Whether a CSV line is the header line. -/
def Entry.isHeader : Entry → Bool
  | Entry.header _ => true
  | Entry.data _ => false

/-- The state of `HourlyCSV` together with the on-disk tree: `tree` maps an
hour-bucket key and a file name to the file's lines (the directory tree
survives process restarts), `currentHour` is `current_hour_dir` and
`openNames` the keys of the open-handle cache `files` (both reset by
rotation and lost on restart). -/
structure CsvState where
  tree : Nat → String → List Entry
  currentHour : Option Nat
  openNames : List String

/-- Pointwise update of the file tree at one (hour, name) slot. -/
def updateTree (t : Nat → String → List Entry) (h : Nat) (n : String)
    (v : List Entry) : Nat → String → List Entry :=
  fun h' n' => if h' = h ∧ n' = n then v else t h' n'

/-- The rotation check at the top of `_ensure_open`: if the wall-clock hour
differs from `current_hour_dir`, close every handle and empty the cache
(closing never changes file contents). -/
def rotateIfNeeded (st : CsvState) (h : Nat) : CsvState :=
  if st.currentHour = some h then st
  else { st with currentHour := some h, openNames := [] }

/-- The open step of `_ensure_open`: if `name` has no cached handle, open the
file in append mode and write the header row only when `f.tell() == 0`,
i.e. only when the file is empty at open time. -/
def openFile (st : CsvState) (h : Nat) (n : String) (hd : List String) : CsvState :=
  if n ∈ st.openNames then st
  else
    { st with
      tree := updateTree st.tree h n
        (if (st.tree h n).isEmpty then [Entry.header hd] else st.tree h n)
      openNames := n :: st.openNames }

/-- One `write_*` call: `_ensure_open` (rotation check, then open with
header-on-empty) followed by `writer.writerow(data)`. -/
def writeRow (st : CsvState) (h : Nat) (n : String) (hd row : List String) : CsvState :=
  let st1 := openFile (rotateIfNeeded st h) h n hd
  { st1 with tree := updateTree st1.tree h n (st1.tree h n ++ [Entry.data row]) }

/-- An event in the life of the hourly CSV tree: a record write (at some
wall-clock hour, to one of the per-kind files), or a process restart (the
handle cache and `current_hour_dir` are lost, the tree persists). -/
inductive CsvEvent where
  | write (hour : Nat) (name : String) (hd row : List String)
  | restart
deriving DecidableEq, Repr

/-- Effect of one event on the CSV state. -/
def csvStep (st : CsvState) : CsvEvent → CsvState
  | CsvEvent.write h n hd row => writeRow st h n hd row
  | CsvEvent.restart => { st with currentHour := none, openNames := [] }

/-- A fresh deployment: empty tree, no current hour, no open handles. -/
def csvInit : CsvState := ⟨fun _ _ => [], none, []⟩

/-- The CSV state after a sequence of writes and restarts from scratch. -/
def runCsv (events : List CsvEvent) : CsvState := events.foldl csvStep csvInit

/-- A well-formed CSV file: empty, or a single header line followed by
header-free lines. -/
def fileOk (l : List Entry) : Prop :=
  l = [] ∨ ∃ cols rest, l = Entry.header cols :: rest ∧ rest.countP Entry.isHeader = 0

/-- Invariant of the CSV subsystem: every file in the tree is well-formed,
and every cached handle of the current hour points at a non-empty file
(its header has already been written). -/
def csvInv (st : CsvState) : Prop :=
  (∀ h n, fileOk (st.tree h n))
  ∧ (∀ h n, st.currentHour = some h → n ∈ st.openNames → st.tree h n ≠ [])

/-- Python `int(...)` digit accumulation. -/
def digitsToNat (l : List Char) : Nat :=
  l.foldl (fun acc c => acc * 10 + (c.toNat - 48)) 0

/-- Whitespace stripped by Python `int(str)` before conversion. -/
def isSpaceChar (c : Char) : Bool :=
  c == ' ' || c == '\t' || c == '\n' || c == '\r'

/-- Strip leading and trailing whitespace. -/
def stripEnds (l : List Char) : List Char :=
  ((l.dropWhile isSpaceChar).reverse.dropWhile isSpaceChar).reverse

/-- Conversion of a stripped character sequence as Python `int(str)` does:
an optional sign followed by at least one decimal digit; anything else
raises `ValueError` (modelled as `none`). -/
def pyIntOfChars : List Char → Option Int := fun l =>
  match stripEnds l with
  | [] => none
  | c :: rest =>
    if c = '-' then
      if rest ≠ [] ∧ rest.all Char.isDigit then some (-(digitsToNat rest : Int)) else none
    else if c = '+' then
      if rest ≠ [] ∧ rest.all Char.isDigit then some ((digitsToNat rest : Int)) else none
    else if (c :: rest).all Char.isDigit then some ((digitsToNat (c :: rest) : Int))
    else none

/-- Python `int(str)` on a query-parameter value (digit-group underscores,
which `int` also accepts, are not needed for the inputs considered here). -/
def pyInt? (s : String) : Option Int := pyIntOfChars s.data

/-- The responses `Handler.do_GET` can produce when it does not raise. -/
inductive Response where
  | html
  | jsonPingsRaw (rows : List PingRow)
  | jsonPingsBucketed (rows : List BucketRow)
  | jsonSpeedtests (rows : List SpeedRow)
  | jsonTraces (rows : List TraceRow)
  | notFound
deriving DecidableEq, Repr

/-- `parse_qs(query).get(k, [d])[0]`: the first value bound to `k`, or the
default when the key is absent. -/
def lookupParam (q : List (String × String)) (k : String) : Option String :=
  ((q.filter fun p => p.1 == k).head?).map Prod.snd

/-- `int(qs.get(k, [d])[0])`: the integer default when the key is absent,
otherwise Python `int` conversion of the first bound value, which raises
`ValueError` on a non-integer string. -/
def getIntParam (q : List (String × String)) (k : String) (d : Int) : Except String Int :=
  match lookupParam q k with
  | none => Except.ok d
  | some v =>
    match pyInt? v with
    | some i => Except.ok i
    | none => Except.error ("ValueError: invalid literal for int: " ++ v)

/-- `Handler.do_GET`: routing and parameter conversion of the web UI, with
`Except.error` modelling an exception escaping the handler (no response is
sent).  `nowMs` is the `end` default computed from the current time. -/
def do_GET (db : Option Store) (nowMs : Int) (path : String)
    (q : List (String × String)) : Except String Response :=
  if path = "/" ∨ path = "/index.html" then Except.ok Response.html
  else if path = "/api/pings" then
    (getIntParam q "start" 0).bind fun start_ms =>
    (getIntParam q "end" nowMs).bind fun end_ms =>
    (getIntParam q "bucket_ms" 0).bind fun bucket_ms =>
    if 0 < bucket_ms then
      Except.ok (Response.jsonPingsBucketed (query_pings_bucketed db start_ms end_ms bucket_ms))
    else Except.ok (Response.jsonPingsRaw (query_pings_raw db start_ms end_ms))
  else if path = "/api/speedtests" then
    (getIntParam q "start" 0).bind fun start_ms =>
    (getIntParam q "end" nowMs).bind fun end_ms =>
    Except.ok (Response.jsonSpeedtests (query_speedtests db start_ms end_ms))
  else if path = "/api/latest_traceroute" then
    Except.ok (Response.jsonTraces (query_last_traces db))
  else Except.ok Response.notFound

end NetAnalytics

namespace NetAnalytics

/-- Rows produced by `mkBucketRow` carry the group key as bucket timestamp. -/
theorem mkBucketRow_bucket_ts (w : Int) (rows : List PingRow) (k : Int × String) :
    (mkBucketRow w rows k).bucket_ts = k.1 := rfl

/-- In every aggregated group, `SUM(success) ≤ COUNT(*)`. -/
theorem mkBucketRow_count_le (w : Int) (rows : List PingRow) (k : Int × String) :
    (mkBucketRow w rows k).success_count ≤ (mkBucketRow w rows k).total_count :=
  List.countP_le_length _

/-- If every successful input row carries a round-trip value, the aggregated
average is `NULL` exactly when the group has zero successes. -/
theorem mkBucketRow_avg_none_iff (w : Int) (rows : List PingRow) (k : Int × String)
    (h : ∀ r ∈ rows, r.success = true → r.rtt_ms ≠ none) :
    ((mkBucketRow w rows k).avg_rtt = none ↔ (mkBucketRow w rows k).success_count = 0) := by
  simp only [mkBucketRow]
  set grp := rows.filter fun r => decide (bucketKey w r = k) with hgrp
  have hsub : ∀ r ∈ grp, r ∈ rows := fun r hr => (List.mem_filter.1 hr).1
  have key : (grp.filterMap fun r => if r.success then r.rtt_ms else none) = []
      ↔ grp.countP (fun r => r.success) = 0 := by
    constructor
    · intro hv
      rw [List.countP_eq_zero]
      intro r hr hsucc
      have hnone := List.filterMap_eq_nil_iff.1 hv r hr
      rw [if_pos hsucc] at hnone
      exact h r (hsub r hr) hsucc hnone
    · intro hc
      rw [List.filterMap_eq_nil_iff]
      intro r hr
      have hns : ¬ (r.success = true) := List.countP_eq_zero.1 hc r hr
      rw [if_neg hns]
  by_cases hv : (grp.filterMap fun r => if r.success then r.rtt_ms else none) = []
  · simp [hv, key.1 hv]
  · have : ((grp.filterMap fun r => if r.success then r.rtt_ms else none).isEmpty) = false := by
      simpa [List.isEmpty_eq_false] using hv
    simp only [this, Bool.false_eq_true, if_false]
    constructor
    · intro hsome; exact absurd hsome (Option.some_ne_none _)
    · intro hc; exact absurd (key.2 hc) hv

/-- C2: for every set of stored ping rows (which, coming from the collector,
give every successful sample a round-trip value) and every bucket width
`w > 0`, each row of the bucketed latency query has a bucket timestamp that is
an exact multiple of `w`, a success count bounded by the total count, and an
absent average exactly when the success count is zero. -/
theorem bucketed_query_row_invariants :
    ∀ (st : Store) (start_ms end_ms w : Int),
      0 < w →
      (∀ r ∈ st.pings, r.success = true → r.rtt_ms ≠ none) →
      ∀ b ∈ query_pings_bucketed (some st) start_ms end_ms w,
        w ∣ b.bucket_ts
        ∧ b.success_count ≤ b.total_count
        ∧ (b.avg_rtt = none ↔ b.success_count = 0) := by
  intro st start_ms end_ms w _ hinv b hb
  simp only [query_pings_bucketed] at hb
  set rows := st.pings.filter fun r => decide (start_ms ≤ r.ts_ms ∧ r.ts_ms ≤ end_ms) with hrows
  rcases List.mem_map.1 hb with ⟨k, hk, rfl⟩
  have hk' : k ∈ (rows.map (bucketKey w)).dedup := (List.mem_insertionSort keyLe).1 hk
  rcases List.mem_map.1 (List.mem_dedup.1 hk') with ⟨r0, _, hbk⟩
  refine ⟨?_, mkBucketRow_count_le w rows k, ?_⟩
  · rw [mkBucketRow_bucket_ts, ← hbk]
    exact dvd_mul_left w (r0.ts_ms / w)
  · refine mkBucketRow_avg_none_iff w rows k ?_
    intro r hr
    exact hinv r (List.mem_filter.1 hr).1

/-- Witness for C2: the theorem applied to a concrete store, width 1000, and
the concrete output row of the bucketed query. -/
theorem bucketed_query_row_invariants_witness :
    (1000 : Int) ∣ (⟨1000, "dest", some 12, 1, 1⟩ : BucketRow).bucket_ts
    ∧ (⟨1000, "dest", some 12, 1, 1⟩ : BucketRow).success_count
        ≤ (⟨1000, "dest", some 12, 1, 1⟩ : BucketRow).total_count
    ∧ ((⟨1000, "dest", some 12, 1, 1⟩ : BucketRow).avg_rtt = none
        ↔ (⟨1000, "dest", some 12, 1, 1⟩ : BucketRow).success_count = 0) :=
  bucketed_query_row_invariants sampleStoreBucketed 0 2000 1000 (by decide) (by decide)
    ⟨1000, "dest", some 12, 1, 1⟩
    (by norm_num [query_pings_bucketed, sampleStoreBucketed, mkBucketRow, bucketKey,
      List.dedup, List.insertionSort, List.filterMap])

/-- C8: for all `start_ms ≤ end_ms`, the raw latency query returns rows
sorted ascending by timestamp, each with its timestamp inside the inclusive
range, and every returned row is one of the stored rows. -/
theorem raw_latency_query_sorted_in_range :
    ∀ (st : Store) (start_ms end_ms : Int), start_ms ≤ end_ms →
      List.Sorted tsLe (query_pings_raw (some st) start_ms end_ms)
      ∧ ∀ r ∈ query_pings_raw (some st) start_ms end_ms,
          start_ms ≤ r.ts_ms ∧ r.ts_ms ≤ end_ms ∧ r ∈ st.pings := by
  intro st start_ms end_ms _
  constructor
  · exact List.sorted_insertionSort tsLe _
  · intro r hr
    simp only [query_pings_raw] at hr
    have hr' := (List.mem_insertionSort tsLe).1 hr
    rcases List.mem_filter.1 hr' with ⟨hmem, hcond⟩
    rcases of_decide_eq_true hcond with ⟨h1, h2⟩
    exact ⟨h1, h2, hmem⟩

/-- Witness for C8: the theorem applied to a concrete store, the range
[0, 10], and the concrete returned row. -/
theorem raw_latency_query_sorted_in_range_witness :
    List.Sorted tsLe (query_pings_raw (some sampleStoreRaw) 0 10)
    ∧ (0 ≤ (⟨5, "8.8.8.8", "dest", none, false⟩ : PingRow).ts_ms
       ∧ (⟨5, "8.8.8.8", "dest", none, false⟩ : PingRow).ts_ms ≤ 10
       ∧ (⟨5, "8.8.8.8", "dest", none, false⟩ : PingRow) ∈ sampleStoreRaw.pings) :=
  ⟨(raw_latency_query_sorted_in_range sampleStoreRaw 0 10 (by decide)).1,
   (raw_latency_query_sorted_in_range sampleStoreRaw 0 10 (by decide)).2
     ⟨5, "8.8.8.8", "dest", none, false⟩ (by decide)⟩

/-- C4: for every store whose `traceroutes` table is non-empty (equivalently,
`MAX(ts_ms)` returns some `m`), the latest-path query returns exactly the
rows carrying that maximum timestamp, ordered ascending by hop index, even
when several distinct discovery timestamps are stored. -/
theorem latest_path_query_max_snapshot :
    ∀ (st : Store) (m : Int),
      (st.traceroutes.map TraceRow.ts_ms).max? = some m →
      (∀ r, r ∈ query_last_traces (some st) ↔ r ∈ st.traceroutes ∧ r.ts_ms = m)
      ∧ (∀ r ∈ st.traceroutes, r.ts_ms ≤ m)
      ∧ List.Sorted hopLe (query_last_traces (some st))
      ∧ List.Perm (query_last_traces (some st))
          (st.traceroutes.filter fun r => decide (r.ts_ms = m)) := by
  intro st m hmax
  have hq : query_last_traces (some st)
      = ((st.traceroutes.filter fun r => decide (r.ts_ms = m)).insertionSort hopLe) := by
    simp only [query_last_traces, hmax]
  refine ⟨?_, ?_, ?_, ?_⟩
  · intro r
    rw [hq]
    rw [List.mem_insertionSort, List.mem_filter]
    exact Iff.rfl.trans (by simp)
  · intro r hr
    have hle := List.max?_le_iff (fun a b c => max_le_iff) hmax (x := m)
    exact (hle.1 le_rfl) r.ts_ms (List.mem_map.2 ⟨r, hr, rfl⟩)
  · rw [hq]; exact List.sorted_insertionSort hopLe _
  · rw [hq]; exact List.perm_insertionSort hopLe _

/-- Witness for C4: the theorem applied to a store holding two discovery
snapshots, at the maximum timestamp 200, instantiated at concrete rows. -/
theorem latest_path_query_max_snapshot_witness :
    ((⟨200, "8.8.8.8", 1, some "10.0.0.2"⟩ : TraceRow)
        ∈ query_last_traces (some sampleStoreTraces)
      ↔ (⟨200, "8.8.8.8", 1, some "10.0.0.2"⟩ : TraceRow) ∈ sampleStoreTraces.traceroutes
        ∧ (⟨200, "8.8.8.8", 1, some "10.0.0.2"⟩ : TraceRow).ts_ms = 200)
    ∧ (⟨100, "8.8.8.8", 1, some "10.0.0.1"⟩ : TraceRow).ts_ms ≤ 200
    ∧ List.Sorted hopLe (query_last_traces (some sampleStoreTraces))
    ∧ List.Perm (query_last_traces (some sampleStoreTraces))
        (sampleStoreTraces.traceroutes.filter fun r => decide (r.ts_ms = 200)) :=
  ⟨(latest_path_query_max_snapshot sampleStoreTraces 200 (by decide)).1
      ⟨200, "8.8.8.8", 1, some "10.0.0.2"⟩,
   (latest_path_query_max_snapshot sampleStoreTraces 200 (by decide)).2.1
      ⟨100, "8.8.8.8", 1, some "10.0.0.1"⟩ (by decide),
   (latest_path_query_max_snapshot sampleStoreTraces 200 (by decide)).2.2.1,
   (latest_path_query_max_snapshot sampleStoreTraces 200 (by decide)).2.2.2⟩

/-- Every row emitted by `traceRowsAux` carries the shared timestamp. -/
theorem traceRowsAux_ts (dest : String) (ts : Int) :
    ∀ (i : Nat) (l : List String), ∀ r ∈ traceRowsAux dest ts i l, r.ts_ms = ts := by
  intro i l
  induction l generalizing i with
  | nil => intro r hr; simp [traceRowsAux] at hr
  | cons ip rest ih =>
    intro r hr
    simp only [traceRowsAux, List.mem_cons] at hr
    rcases hr with rfl | hr
    · rfl
    · exact ih (i + 1) r hr

/-- `traceRowsAux` emits one row per address. -/
theorem traceRowsAux_length (dest : String) (ts : Int) :
    ∀ (i : Nat) (l : List String), (traceRowsAux dest ts i l).length = l.length := by
  intro i l
  induction l generalizing i with
  | nil => rfl
  | cons ip rest ih => simp [traceRowsAux, ih]

/-- The hop indices of `traceRowsAux` are consecutive starting at `i`. -/
theorem traceRowsAux_hops (dest : String) (ts : Int) :
    ∀ (i : Nat) (l : List String),
      (traceRowsAux dest ts i l).map TraceRow.hop = List.range' i l.length := by
  intro i l
  induction l generalizing i with
  | nil => rfl
  | cons ip rest ih => simp [traceRowsAux, List.range'_succ, ih]

/-- C5: the `traceroutes` rows persisted by one discovery cycle all share the
single timestamp captured for that cycle, number at most 3 (the first three
resolved addresses), and carry consecutive hop indices starting at 1. -/
theorem discovery_rows_shared_ts_bounded_sequential :
    ∀ (dest : String) (ts : Int) (hops : List String),
      (∀ r ∈ traceRowsOf dest ts hops, r.ts_ms = ts)
      ∧ (traceRowsOf dest ts hops).length ≤ 3
      ∧ (traceRowsOf dest ts hops).map TraceRow.hop
          = List.range' 1 (traceRowsOf dest ts hops).length := by
  intro dest ts hops
  refine ⟨traceRowsAux_ts dest ts 1 _, ?_, ?_⟩
  · rw [traceRowsOf, traceRowsAux_length]
    simp [List.length_take]
  · rw [traceRowsOf, traceRowsAux_hops, traceRowsAux_length]

/-- C1 counterexample: with the default refresh interval of 300 s, a cycle at
t = 1000 s whose traceroute resolves nothing (tool unavailable) leaves
`hop_ips` empty, so the next cycle at t = 1003 s re-invokes discovery only
3 s later: the `or not hop_ips` half of the due-condition overrides the
freshly reset clock, refuting the claimed minimum spacing. -/
theorem discovery_backoff_counterexample :
    traceRun 300 ⟨0, []⟩ [(1000, []), (1003, ["10.0.0.1"])] = [1000, 1003]
    ∧ ¬ (1000 + 300 ≤ 1003) := by
  decide

/-- C1 amended: the backoff holds only while a hop set exists.  First: from
any state with a non-empty hop set, the next discovery invocation happens no
earlier than one refresh interval after the last clock reset.  Second: from a
state with an empty hop set (the aftermath of a zero-hop discovery), the very
next cycle re-invokes discovery unconditionally. -/
theorem discovery_backoff_amended :
    (∀ (refresh : Nat) (st : TraceState) (cycles : List (Nat × List String)) (t : Nat),
        st.hop_ips ≠ [] →
        (∀ c ∈ cycles, st.last_trace_ts ≤ c.1) →
        (traceRun refresh st cycles).head? = some t →
        st.last_trace_ts + refresh ≤ t)
    ∧ (∀ (refresh : Nat) (st : TraceState) (now : Nat) (hops : List String),
        st.hop_ips = [] → (traceStep refresh st now hops).2 = true) := by
  constructor
  · intro refresh st cycles
    induction cycles generalizing st with
    | nil => intro t _ _ h; simp [traceRun] at h
    | cons c rest ih =>
      intro t hne htimes hhead
      by_cases hc : refresh ≤ c.1 - st.last_trace_ts
      · have hstep : traceStep refresh st c.1 c.2
            = ({ last_trace_ts := c.1, hop_ips := c.2.take 3 }, true) := by
          simp [traceStep, hc]
        simp only [traceRun, hstep, if_pos, List.head?_cons, Option.some.injEq] at hhead
        have hle : st.last_trace_ts ≤ c.1 := htimes c (List.mem_cons_self c rest)
        omega
      · have hstep : traceStep refresh st c.1 c.2 = (st, false) := by
          simp [traceStep, hc, hne]
        simp only [traceRun, hstep, Bool.false_eq_true, if_false] at hhead
        exact ih st t hne (fun c' hc' => htimes c' (List.mem_cons_of_mem _ hc')) hhead
  · intro refresh st now hops h
    simp [traceStep, h]

/-- Witness for the amended C1: with a cached hop and clock reset at 1000 s,
the next invocation happens at 1300 s ≥ 1000 + 300; and from an empty hop
set, `traceStep` invokes immediately. -/
theorem discovery_backoff_amended_witness :
    1000 + 300 ≤ 1300 ∧ (traceStep 300 ⟨50, []⟩ 60 ["10.0.0.9"]).2 = true := by
  constructor
  · exact discovery_backoff_amended.1 300 ⟨1000, ["10.0.0.1"]⟩ [(1300, [])] 1300
      (by decide) (by decide) (by decide)
  · exact discovery_backoff_amended.2 300 ⟨50, []⟩ 60 ["10.0.0.9"] rfl

/-- C3 counterexample: with two targets and a SQLite insert that raises for
the first record, the loop stops at the first target (the second is never
pinged), the CSV sink receives nothing for the failed record, and the
exception escapes uncaught — refuting "logged and the loop continues". -/
theorem ping_write_isolation_counterexample :
    pingPersistFirstDbFailure.2.1 = ["10.0.0.1"]
    ∧ "8.8.8.8" ∉ pingPersistFirstDbFailure.2.1
    ∧ pingPersistFirstDbFailure.1.csvRows = []
    ∧ pingPersistFirstDbFailure.2.2 = some (WriteErr.dbErr "10.0.0.1") := by
  decide

/-- C3 amended: a storage write failure is not caught: a SQLite insert error
for a record aborts the loop before that record's CSV append and before any
later target, leaving the sinks as they were; a CSV append error likewise
aborts the loop, with that record already in the SQLite sink. -/
theorem ping_write_failure_aborts :
    ∀ (dbFails csvFails : PingRow → Bool) (r : PingRow) (rest : List PingRow)
      (st : PingSinks),
      (dbFails r = true →
        pingPersistLoop dbFails csvFails (r :: rest) st
          = (st, [r.target], some (WriteErr.dbErr r.target)))
      ∧ (dbFails r = false → csvFails r = true →
        pingPersistLoop dbFails csvFails (r :: rest) st
          = ({ st with dbRows := st.dbRows ++ [r] }, [r.target],
              some (WriteErr.csvErr r.target))) := by
  intro dbFails csvFails r rest st
  constructor
  · intro h
    simp [pingPersistLoop, h]
  · intro h1 h2
    simp [pingPersistLoop, h1, h2]

/-- Witness for the amended C3: a failing SQLite insert aborts a one-record
loop with nothing persisted. -/
theorem ping_write_failure_aborts_witness :
    pingPersistLoop (fun _ => true) (fun _ => false)
      [⟨0, "8.8.8.8", "dest", none, false⟩] ⟨[], []⟩
      = (⟨[], []⟩, ["8.8.8.8"], some (WriteErr.dbErr "8.8.8.8")) :=
  (ping_write_failure_aborts (fun _ => true) (fun _ => false)
    ⟨0, "8.8.8.8", "dest", none, false⟩ [] ⟨[], []⟩).1 rfl

/-- C7: in one speedtest batch where server `a` errors and server `b`
succeeds, `b` is still attempted after `a`'s failure and exactly `b`'s row is
persisted — no row for `a`. -/
theorem speedtest_cycle_failure_isolated :
    ∀ (probe : String → Except String SpeedResult) (ts : String → Int)
      (a b e : String) (r : SpeedResult),
      probe a = Except.error e → probe b = Except.ok r →
      speedtestCycle probe ts [a, b] = ([a, b], [mkSpeedRow (ts b) r]) := by
  intro probe ts a b e r ha hb
  simp [speedtestCycle, ha, hb]

/-- Witness for C7: a concrete probe failing on server "1" and succeeding on
server "2". -/
theorem speedtest_cycle_failure_isolated_witness :
    speedtestCycle
      (fun s => if s = "1" then Except.error "rc=1"
        else Except.ok ⟨"ookla", some "2", some "S2", some 10, some 100, some 20, some 1⟩)
      (fun _ => 5000) ["1", "2"]
      = (["1", "2"],
         [mkSpeedRow 5000 ⟨"ookla", some "2", some "S2", some 10, some 100, some 20, some 1⟩]) :=
  speedtest_cycle_failure_isolated
    (fun s => if s = "1" then Except.error "rc=1"
      else Except.ok ⟨"ookla", some "2", some "S2", some 10, some 100, some 20, some 1⟩)
    (fun _ => 5000) "1" "2" "rc=1"
    ⟨"ookla", some "2", some "S2", some 10, some 100, some 20, some 1⟩
    rfl rfl

/-- Reading the slot that `updateTree` wrote. -/
theorem updateTree_same (t : Nat → String → List Entry) (h : Nat) (n : String)
    (v : List Entry) : updateTree t h n v h n = v := by
  simp [updateTree]

/-- Reading any other slot after `updateTree`. -/
theorem updateTree_other (t : Nat → String → List Entry) (h : Nat) (n : String)
    (v : List Entry) (h' : Nat) (n' : String) (hne : ¬(h' = h ∧ n' = n)) :
    updateTree t h n v h' n' = t h' n' := by
  simp [updateTree, hne]

/-- The fresh state satisfies the CSV invariant. -/
theorem csvInv_init : csvInv csvInit := by
  constructor
  · intro h n; exact Or.inl rfl
  · intro h n hc
    simp [csvInit] at hc

/-- Rotation preserves the invariant, sets the current hour, and leaves the
tree untouched. -/
theorem rotateIfNeeded_inv (st : CsvState) (h : Nat) (hinv : csvInv st) :
    csvInv (rotateIfNeeded st h)
    ∧ (rotateIfNeeded st h).currentHour = some h
    ∧ (rotateIfNeeded st h).tree = st.tree := by
  unfold rotateIfNeeded
  by_cases hc : st.currentHour = some h
  · rw [if_pos hc]
    exact ⟨hinv, hc, rfl⟩
  · rw [if_neg hc]
    refine ⟨⟨hinv.1, ?_⟩, rfl, rfl⟩
    intro h' n _ hn
    exact absurd hn (List.not_mem_nil n)

/-- Opening a file preserves the invariant and leaves the opened file
non-empty (its header was written exactly when it was empty). -/
theorem openFile_inv (st : CsvState) (h : Nat) (n : String) (hd : List String)
    (hinv : csvInv st) (hcur : st.currentHour = some h) :
    csvInv (openFile st h n hd) ∧ (openFile st h n hd).tree h n ≠ [] := by
  unfold openFile
  by_cases hmem : n ∈ st.openNames
  · rw [if_pos hmem]
    exact ⟨hinv, hinv.2 h n hcur hmem⟩
  · rw [if_neg hmem]
    have hnew_ok : fileOk (if (st.tree h n).isEmpty then [Entry.header hd] else st.tree h n) := by
      by_cases he : (st.tree h n).isEmpty
      · rw [if_pos he]
        exact Or.inr ⟨hd, [], rfl, rfl⟩
      · rw [if_neg he]
        exact hinv.1 h n
    have hnew_ne : (if (st.tree h n).isEmpty then [Entry.header hd] else st.tree h n) ≠ [] := by
      by_cases he : (st.tree h n).isEmpty
      · rw [if_pos he]; simp
      · rw [if_neg he]
        intro hnil
        rw [hnil] at he
        exact he rfl
    refine ⟨⟨?_, ?_⟩, ?_⟩
    · intro h' n'
      by_cases hk : h' = h ∧ n' = n
      · show fileOk (updateTree st.tree h n _ h' n')
        rcases hk with ⟨rfl, rfl⟩
        rw [updateTree_same]
        exact hnew_ok
      · show fileOk (updateTree st.tree h n _ h' n')
        rw [updateTree_other _ _ _ _ _ _ hk]
        exact hinv.1 h' n'
    · intro h' n' hch hn'
      have hh : h' = h := by
        rw [hcur] at hch
        exact (Option.some.injEq _ _ ▸ hch).symm
      subst hh
      rcases List.mem_cons.1 hn' with rfl | hmem'
      · show updateTree st.tree h' n' _ h' n' ≠ []
        rw [updateTree_same]
        exact hnew_ne
      · have hne' : ¬(h' = h' ∧ n' = n) := by
          rintro ⟨-, rfl⟩
          exact hmem hmem'
        show updateTree st.tree h' n _ h' n' ≠ []
        rw [updateTree_other _ _ _ _ _ _ hne']
        exact hinv.2 h' n' hcur hmem'
    · show updateTree st.tree h n _ h n ≠ []
      rw [updateTree_same]
      exact hnew_ne

/-- Appending a data row keeps a non-empty well-formed file well-formed. -/
theorem fileOk_append_data (l : List Entry) (row : List String)
    (hok : fileOk l) (hne : l ≠ []) :
    fileOk (l ++ [Entry.data row]) := by
  rcases hok with rfl | ⟨cols, rest, rfl, hcount⟩
  · exact absurd rfl hne
  · refine Or.inr ⟨cols, rest ++ [Entry.data row], by simp, ?_⟩
    rw [List.countP_append, hcount]
    simp [Entry.isHeader]

/-- A full `write_*` call preserves the CSV invariant. -/
theorem writeRow_inv (st : CsvState) (h : Nat) (n : String) (hd row : List String)
    (hinv : csvInv st) : csvInv (writeRow st h n hd row) := by
  obtain ⟨hinv1, hcur, -⟩ := rotateIfNeeded_inv st h hinv
  obtain ⟨hinv2, hne⟩ := openFile_inv (rotateIfNeeded st h) h n hd hinv1 hcur
  unfold writeRow
  constructor
  · intro h' n'
    by_cases hk : h' = h ∧ n' = n
    · show fileOk (updateTree (openFile (rotateIfNeeded st h) h n hd).tree h n _ h' n')
      rcases hk with ⟨rfl, rfl⟩
      rw [updateTree_same]
      exact fileOk_append_data _ row (hinv2.1 h' n') hne
    · show fileOk (updateTree (openFile (rotateIfNeeded st h) h n hd).tree h n _ h' n')
      rw [updateTree_other _ _ _ _ _ _ hk]
      exact hinv2.1 h' n'
  · intro h' n' hch hn'
    by_cases hk : h' = h ∧ n' = n
    · show updateTree (openFile (rotateIfNeeded st h) h n hd).tree h n _ h' n' ≠ []
      rcases hk with ⟨rfl, rfl⟩
      rw [updateTree_same]
      simp
    · show updateTree (openFile (rotateIfNeeded st h) h n hd).tree h n _ h' n' ≠ []
      rw [updateTree_other _ _ _ _ _ _ hk]
      exact hinv2.2 h' n' hch hn'

/-- Every event preserves the CSV invariant. -/
theorem csvStep_inv (st : CsvState) (ev : CsvEvent) (hinv : csvInv st) :
    csvInv (csvStep st ev) := by
  cases ev with
  | write h n hd row => exact writeRow_inv st h n hd row hinv
  | restart =>
    refine ⟨hinv.1, ?_⟩
    intro h n _ hn
    exact absurd hn (List.not_mem_nil n)

/-- The invariant holds along any event sequence. -/
theorem foldl_csvStep_inv :
    ∀ (evs : List CsvEvent) (st : CsvState), csvInv st → csvInv (List.foldl csvStep st evs)
  | [], _, hinv => hinv
  | ev :: evs, st, hinv => foldl_csvStep_inv evs (csvStep st ev) (csvStep_inv st ev hinv)

/-- C6: after any sequence of writes, restarts and hour rotations starting
from a fresh tree, every file in the hourly tree is either still absent
(empty) or contains exactly one header row, which is its first line —
the header is written only when the file is empty at open time. -/
theorem csv_single_header_invariant :
    ∀ (events : List CsvEvent) (h : Nat) (n : String),
      (runCsv events).tree h n = []
      ∨ (((runCsv events).tree h n).countP Entry.isHeader = 1
         ∧ ∃ cols rest, (runCsv events).tree h n = Entry.header cols :: rest) := by
  intro events h n
  have hinv : csvInv (runCsv events) := foldl_csvStep_inv events csvInit csvInv_init
  rcases hinv.1 h n with he | ⟨cols, rest, heq, hcount⟩
  · exact Or.inl he
  · refine Or.inr ⟨?_, cols, rest, heq⟩
    rw [heq, List.countP_cons, hcount]
    simp [Entry.isHeader]

/-- C10: a `/api/pings` request whose `start` parameter is the non-integer
string "abc" makes parameter conversion raise `ValueError` before any query
runs; the handler produces no 200 JSON-array response but an escaping
exception, a case covered neither by the 404 path nor by the
missing-store-yields-empty-array behavior. -/
theorem malformed_param_raises_before_query :
    ∀ (db : Option Store) (nowMs : Int),
      do_GET db nowMs "/api/pings" [("start", "abc")]
        = Except.error "ValueError: invalid literal for int: abc" := by
  intro db nowMs
  rfl

/-- C9: every query of the web UI returns an empty result when the durable
store file does not exist (`get_conn` returns `None` and each query
short-circuits to `[]`). -/
theorem queries_empty_when_store_missing :
    ∀ (start_ms end_ms w : Int),
      query_pings_raw none start_ms end_ms = []
      ∧ query_pings_bucketed none start_ms end_ms w = []
      ∧ query_speedtests none start_ms end_ms = []
      ∧ query_last_traces none = [] :=
  fun _ _ _ => ⟨rfl, rfl, rfl, rfl⟩

end NetAnalytics
